import Mathlib

set_option maxRecDepth 8192

/-!
Shallow embedding of the log-parsing routine `extract_loss_info_from_stdout`
from `src/utils.py` of the SCAI2024_Estimating_Synthetic_Data repository.

The Python function scans its input with the regular expression
`#START#\n(.+?)\n(.+?)#END#` under `re.DOTALL` (`re.findall`), strips the
first capture to obtain a dataset identifier, splits the second capture on
`"\n"`, keeps the lines starting with `"Epoch"`, and runs three independent
list comprehensions extracting `int(re.findall(r"Epoch (\d+)", line)[0])`,
`float(re.findall(r"Loss G: (.+?),", line)[0])` and
`float(re.findall(r"Loss D: (.+)", line)[0])`.  The three column lists are
packed into a `pandas.DataFrame` and stored in a `dict` keyed by the
identifier (later blocks overwrite earlier ones with the same key).

Strings are modelled as `List Char`.  A `[0]` on an empty `re.findall`
result is an `IndexError`; a failing `float(...)` is a `ValueError`; both
abort the whole call, which we model with `Except`.  Numeric values are
modelled as exact rationals built with `mkRat` (the idealisation of IEEE
floats by exact decimals; the modelled fragment of Python `float` covers
`[±]digits[.digits]` with surrounding whitespace, which is the shape the
loss logs produce — exponent/inf/nan/underscore forms are outside it and
are mapped to a `ValueError` like any other unconvertible text).
-/

namespace LossLog

abbrev Str := List Char

def strToL (s : String) : Str := s.data

/-- The ASCII whitespace characters removed by Python `str.strip()`. -/
def isPyWs (c : Char) : Bool :=
  c = ' ' || c = '\t' || c = '\n' || c = '\r' || c = '\x0b' || c = '\x0c'

/-- Python `s.strip()`: drop leading and trailing whitespace. -/
def pyStrip (s : Str) : Str :=
  ((s.dropWhile isPyWs).reverse.dropWhile isPyWs).reverse

/-- Python `s.split("\n")`: split at every newline, keeping empty pieces
(`"".split("\n") = [""]`, `"a\n".split("\n") = ["a", ""]`). -/
def pySplitNl : Str → List Str
  | [] => [[]]
  | c :: rest =>
    if c = '\n' then [] :: pySplitNl rest
    else
      match pySplitNl rest with
      | [] => [[c]]
      | l :: ls => (c :: l) :: ls

/-- Join lines with `"\n"` — the (partial) inverse of `pySplitNl`, used to
state body-level claims about line lists. -/
def joinNl : List Str → Str
  | [] => []
  | [l] => l
  | l :: ls => l ++ '\n' :: joinNl ls

/-- Value of a string of decimal digits, as Python `int` reads it. -/
def digitsToNat (ds : Str) : Nat :=
  ds.foldl (fun n c => 10 * n + (c.toNat - 48)) 0

/-- Test that the pattern `p` occurs as a contiguous substring of the second argument. -/
def containsSub (p : Str) : Str → Bool
  | [] => p.isEmpty
  | c :: rest => p.isPrefixOf (c :: rest) || containsSub p rest

def startMarker : Str := "#START#\n".data

def endMarker : Str := "#END#".data

/-- First occurrence of `#START#\n` in `s`: `s = pre ++ "#START#\n" ++ post`
with the earliest possible `pre`; returns `(pre, post)`. -/
def splitFirstStart : Str → Option (Str × Str)
  | [] => none
  | c :: rest =>
    if startMarker.isPrefixOf (c :: rest) then some ([], (c :: rest).drop 8)
    else (splitFirstStart rest).map (fun p => (c :: p.1, p.2))

/-- First occurrence of `#END#` in `s`: `s = pre ++ "#END#" ++ post` with the
earliest possible `pre`; returns `(pre, post)`. -/
def splitFirstEnd : Str → Option (Str × Str)
  | [] => none
  | c :: rest =>
    if endMarker.isPrefixOf (c :: rest) then some ([], (c :: rest).drop 5)
    else (splitFirstEnd rest).map (fun p => (c :: p.1, p.2))

/-- The lazy group `(.+?)` followed by the literal `#END#` (DOTALL): the
shortest nonempty `g2` with `s = g2 ++ "#END#" ++ after`. -/
def lazyEndSplit : Str → Option (Str × Str)
  | [] => none
  | c :: rest => (splitFirstEnd rest).map (fun p => (c :: p.1, p.2))

/-- All splits `s = a ++ '\n' :: b`, ordered by increasing length of `a` —
the candidate expansions of the lazy group `(.+?)` before the literal `\n`
in the block pattern, tried in exactly this order by the regex engine. -/
def splitsAtNl : Str → List (Str × Str)
  | [] => []
  | c :: rest =>
    (if c = '\n' then [(([] : Str), rest)] else []) ++
      (splitsAtNl rest).map (fun p => (c :: p.1, p.2))

/-- Match `(.+?)\n(.+?)#END#` (DOTALL) against `s`, i.e. the part of the
block pattern after `#START#\n`: the first capture is expanded lazily, and
for each candidate the second capture is expanded lazily; returns
`(g1, g2, rest-after-END)` for the first succeeding combination. -/
def matchBlock (s : Str) : Option (Str × Str × Str) :=
  ((splitsAtNl s).filter (fun p => !p.1.isEmpty)).findSome? (fun p =>
    match lazyEndSplit p.2 with
    | some q => some (p.1, q.1, q.2)
    | none => none)

/-- One step of `re.findall` scanning: find the next `#START#\n`, try the
rest of the pattern there; on success continue after the whole match, on
failure resume scanning one character past the failed start position.
Each step strictly shrinks the string, so `s.length + 1` fuel always
suffices for `findallBlocks`. -/
def findallAux : Nat → Str → List (Str × Str)
  | 0, _ => []
  | fuel + 1, s =>
    match splitFirstStart s with
    | none => []
    | some p =>
      match matchBlock p.2 with
      | some m => (m.1, m.2.1) :: findallAux fuel m.2.2
      | none => findallAux fuel ("START#\n".data ++ p.2)

/-- Model of `re.findall` applied to the block pattern under DOTALL. -/
def findallBlocks (s : Str) : List (Str × Str) :=
  findallAux (s.length + 1) s

/-- The errors the Python routine can raise while converting a block:
`IndexError` from `[0]` on an empty `findall` result (its message is the
fixed string `list index out of range`), and `ValueError` from `float(arg)`
(its message quotes only `arg`, the captured field text). -/
inductive PyErr where
  | indexError : PyErr
  | valueError : Str → PyErr
  deriving DecidableEq

/-- The message text of the raised Python exception. -/
def PyErr.message : PyErr → Str
  | .indexError => "list index out of range".data
  | .valueError a => "could not convert string to float: ".data ++ a

/-- The `pandas.DataFrame({"Epoch": ..., "Loss_G": ..., "Loss_D": ...})`
built for one block: three equal-length columns. -/
structure LossTable where
  epoch : List Nat
  loss_G : List ℚ
  loss_D : List ℚ
  deriving DecidableEq

/-- The rows of the table, as (Epoch, Loss_G, Loss_D) triples. -/
def LossTable.rows (t : LossTable) : List (Nat × ℚ × ℚ) :=
  t.epoch.zip (t.loss_G.zip t.loss_D)

/-- Capture of the first match of `Epoch (\d+)` in a line: at the leftmost
position where the literal `Epoch ` is followed by at least one digit,
capture the maximal digit run. -/
def epochNumCapture : Str → Option Str
  | [] => none
  | c :: rest =>
    if "Epoch ".data.isPrefixOf (c :: rest) &&
        !(((c :: rest).drop 6).takeWhile Char.isDigit).isEmpty then
      some (((c :: rest).drop 6).takeWhile Char.isDigit)
    else epochNumCapture rest

/-- Shortest prefix of `s` before a `,`, failing on a newline (the lazy
`(.+?)` may not cross `\n` without DOTALL). -/
def upToComma : Str → Option Str
  | [] => none
  | c :: rest =>
    if c = ',' then some []
    else if c = '\n' then none
    else (upToComma rest).map (fun t => c :: t)

/-- The lazy group of `Loss G: (.+?),` at a fixed position: at least one
non-newline character, then the shortest continuation reaching a `,`. -/
def lazyCommaSplit : Str → Option Str
  | [] => none
  | c :: rest =>
    if c = '\n' then none else (upToComma rest).map (fun t => c :: t)

/-- Capture of the first match of `Loss G: (.+?),` in a line: leftmost
occurrence of the literal `Loss G: ` from which a comma is reachable. -/
def lossGCapture : Str → Option Str
  | [] => none
  | c :: rest =>
    match (if "Loss G: ".data.isPrefixOf (c :: rest) then
        lazyCommaSplit ((c :: rest).drop 8) else none) with
    | some cap => some cap
    | none => lossGCapture rest

/-- Capture of the first match of `Loss D: (.+)` in a line: leftmost
occurrence of the literal `Loss D: ` followed by at least one non-newline
character; the greedy group runs to the end of the line. -/
def lossDCapture : Str → Option Str
  | [] => none
  | c :: rest =>
    if "Loss D: ".data.isPrefixOf (c :: rest) &&
        !(((c :: rest).drop 8).takeWhile (fun d => d ≠ '\n')).isEmpty then
      some (((c :: rest).drop 8).takeWhile (fun d => d ≠ '\n'))
    else lossDCapture rest

def intOfSign (neg : Bool) (n : Nat) : Int :=
  if neg then -(n : Int) else (n : Int)

/-- Python `float` on an unsigned body: `digits`, `digits.`, `digits.digits`
or `.digits` (at least one digit overall). -/
def pyFloatCore (neg : Bool) (t : Str) : Option ℚ :=
  let ip := t.takeWhile Char.isDigit
  match t.drop ip.length with
  | [] =>
    if ip.isEmpty then none
    else some (mkRat (intOfSign neg (digitsToNat ip)) 1)
  | '.' :: fr =>
    if fr.all Char.isDigit && !(ip.isEmpty && fr.isEmpty) then
      some (mkRat (intOfSign neg (digitsToNat ip * 10 ^ fr.length + digitsToNat fr))
        (10 ^ fr.length))
    else none
  | _ => none

/-- Python `float(s)` on the decimal fragment it receives here: strip
whitespace, optional sign, then a plain decimal literal; `none` models a
`ValueError`. -/
def pyFloat (s0 : Str) : Option ℚ :=
  match pyStrip s0 with
  | '-' :: r => pyFloatCore true r
  | '+' :: r => pyFloatCore false r
  | r => pyFloatCore false r

/-- Model of `int(re.findall(r"Epoch (\d+)", line)[0])`. -/
def extractEpochNum (l : Str) : Except PyErr Nat :=
  match epochNumCapture l with
  | some ds => .ok (digitsToNat ds)
  | none => .error .indexError

/-- Model of `float(re.findall(r"Loss G: (.+?),", line)[0])`. -/
def extractLossG (l : Str) : Except PyErr ℚ :=
  match lossGCapture l with
  | none => .error .indexError
  | some cap =>
    match pyFloat cap with
    | some q => .ok q
    | none => .error (.valueError cap)

/-- Model of `float(re.findall(r"Loss D: (.+)", line)[0])`. -/
def extractLossD (l : Str) : Except PyErr ℚ :=
  match lossDCapture l with
  | none => .error .indexError
  | some cap =>
    match pyFloat cap with
    | some q => .ok q
    | none => .error (.valueError cap)

/-- The lines of a block body that enter each of the three comprehensions:
`[... for line in data_str.split("\n") if line.startswith("Epoch")]`. -/
def epochLinesOf (data_str : Str) : List Str :=
  (pySplitNl data_str).filter (fun l => "Epoch".data.isPrefixOf l)

/-- A Python list comprehension over `xs` whose element expression may
raise: left-to-right, the first raise aborts the whole comprehension. -/
def exMapM (f : α → Except PyErr β) : List α → Except PyErr (List β)
  | [] => .ok []
  | a :: as =>
    match f a with
    | .error e => .error e
    | .ok b =>
      match exMapM f as with
      | .error e => .error e
      | .ok bs => .ok (b :: bs)

/-- The three comprehensions and the DataFrame construction for one block
body, in the evaluation order of the source: first all epoch numbers, then
all generator losses, then all discriminator losses. -/
def blockTable (data_str : Str) : Except PyErr LossTable :=
  match exMapM extractEpochNum (epochLinesOf data_str) with
  | .error e => .error e
  | .ok es =>
    match exMapM extractLossG (epochLinesOf data_str) with
    | .error e => .error e
    | .ok gs =>
      match exMapM extractLossD (epochLinesOf data_str) with
      | .error e => .error e
      | .ok ds => .ok ⟨es, gs, ds⟩

/-- Processing of one `findall` match `(group1, group2)`: the key is the
stripped first capture, the value the table built from the second. -/
def processBlock (m : Str × Str) : Except PyErr (Str × LossTable) :=
  match blockTable m.2 with
  | .error e => .error e
  | .ok t => .ok (pyStrip m.1, t)

abbrev PyDict := List (Str × LossTable)

/-- Python `dict` assignment `d[k] = v`: overwrite in place if the key is
present (keeping its position), else append. -/
def dictInsert (k : Str) (v : LossTable) : PyDict → PyDict
  | [] => [(k, v)]
  | (k', v') :: d => if k' = k then (k, v) :: d else (k', v') :: dictInsert k v d

/-- Python `d[k]` / `d.get(k)`. -/
def dictLookup (k : Str) : PyDict → Option LossTable
  | [] => none
  | (k', v') :: d => if k' = k then some v' else dictLookup k d

/-- The `for match in matches:` loop body of the source: process each block
in order, inserting into the dict; an exception aborts the loop and the
whole call, discarding the dict built so far. -/
def insertBlocks : List (Str × Str) → PyDict → Except PyErr PyDict
  | [], d => .ok d
  | m :: ms, d =>
    match processBlock m with
    | .error e => .error e
    | .ok kt => insertBlocks ms (dictInsert kt.1 kt.2 d)

/-- Model of `extract_loss_info_from_stdout(input_str)` from `src/utils.py`. -/
def extract_loss_info_from_stdout (input_str : Str) : Except PyErr PyDict :=
  insertBlocks (findallBlocks input_str) []

instance instDecEqExcept {ε α : Type} [DecidableEq ε] [DecidableEq α] :
    DecidableEq (Except ε α)
  | .ok a, .ok b =>
    if h : a = b then .isTrue (congrArg Except.ok h)
    else .isFalse (fun hh => h (Except.ok.inj hh))
  | .ok _, .error _ => .isFalse (fun hh => Except.noConfusion hh)
  | .error _, .ok _ => .isFalse (fun hh => Except.noConfusion hh)
  | .error e, .error f =>
    if h : e = f then .isTrue (congrArg Except.error h)
    else .isFalse (fun hh => h (Except.error.inj hh))

/-- The last element of a list satisfying a predicate, if any. -/
def lastWith (p : α → Bool) : List α → Option α
  | [] => none
  | a :: as =>
    match lastWith p as with
    | some b => some b
    | none => if p a then some a else none

/-- Row `i` of the table comes from epoch line `i` of the block body, for
every `i`, and all three columns have exactly one entry per epoch line:
the table enumerates the epoch lines of the body in their textual order,
with no sorting and no deduplication. -/
structure RowsInBodyOrder (body : Str) (t : LossTable) : Prop where
  len_epoch : t.epoch.length = (epochLinesOf body).length
  len_G : t.loss_G.length = (epochLinesOf body).length
  len_D : t.loss_D.length = (epochLinesOf body).length
  row_epoch : ∀ i, i < (epochLinesOf body).length →
    extractEpochNum ((epochLinesOf body).getD i []) = .ok (t.epoch.getD i 0)
  row_G : ∀ i, i < (epochLinesOf body).length →
    extractLossG ((epochLinesOf body).getD i []) = .ok (t.loss_G.getD i 0)
  row_D : ∀ i, i < (epochLinesOf body).length →
    extractLossD ((epochLinesOf body).getD i []) = .ok (t.loss_D.getD i 0)

/-! ### Concrete inputs used by the claims and their witnesses -/

def inC1 : Str :=
  strToL "#START#\nD1\nEpoch 0, Loss G: 1.5, Loss D: 0.9\nEpoch 1, Loss G: 1.2, Loss D: 0.8\n#END#"

def tblC1 : LossTable :=
  ⟨[0, 1], [mkRat 15 10, mkRat 12 10], [mkRat 9 10, mkRat 8 10]⟩

def inC2a : Str := strToL "#START#\nD1\nEpoch 0, Loss G: 1.5\n#END#"

def inC2b : Str := strToL "#START#\nD2\nEpoch 7, Loss G: 2.5\n#END#"

def mC2 : Str × Str := (strToL "D1", strToL "Epoch 0, Loss G: 1.5\n")

def lC2 : Str := strToL "Epoch 0, Loss G: 1.5"

def sC3 : Str :=
  strToL "#START#\nD1\nEpoch 5, Loss G: 1.5, Loss D: 0.5\nEpoch 2, Loss G: 2.5, Loss D: 0.25\nEpoch 2, Loss G: 2.5, Loss D: 0.25\n#END#"

def tC3 : LossTable :=
  ⟨[5, 2, 2], [mkRat 15 10, mkRat 25 10, mkRat 25 10],
    [mkRat 5 10, mkRat 25 100, mkRat 25 100]⟩

def dC3 : PyDict := [(strToL "D1", tC3)]

def sC4 : Str :=
  strToL "#START#\nD1\nEpoch 0, Loss G: 1.5, Loss D: 0.5\n#END#\n#START#\nD1\nEpoch 7, Loss G: 2.5, Loss D: 3.5\n#END#"

def mC4 : Str × Str := (strToL "D1", strToL "Epoch 7, Loss G: 2.5, Loss D: 3.5\n")

def tC4 : LossTable := ⟨[7], [mkRat 25 10], [mkRat 35 10]⟩

def dC4 : PyDict := [(strToL "D1", tC4)]

def sC5 : Str := strToL "Epoch 0, Loss G: 1.5, Loss D: 0.5 with no markers at all"

def sC6 : Str := strToL "#START#\n   \nEpoch 0, Loss G: 1.5, Loss D: 0.5\n#END#"

def mC6 : Str × Str := (strToL "   ", strToL "Epoch 0, Loss G: 1.5, Loss D: 0.5\n")

def dC6 : PyDict := [(([] : Str), ⟨[0], [mkRat 15 10], [mkRat 5 10]⟩)]

def lnC7a : Str := strToL "Epoch 0, Loss G: 1.5, Loss D: 0.5"

def lnC7b : Str := strToL "Epoch 1, Loss G: 1.2, Loss D: 0.8"

def noiseC7 : Str := strToL "Step info: foo"

def sC8 : Str := strToL "#START#\nD1\nEpoch 0, Loss G: 1.5, Loss D: 0.9\n#END#"

def sC9 : Str := strToL "#START#\nD1\n#END#"

def sC9x : Str := strToL "#START#\nD1\n#END# x #END#"

def sC10 : Str :=
  strToL "#START#\nA\nEpoch 0, Loss G: 1.5, Loss D: 0.5\n#END#\n#START#\nB\nEpoch 1, Loss G: 3.5, nothing\n#END#"

def mC10 : Str × Str := (strToL "B", strToL "Epoch 1, Loss G: 3.5, nothing\n")

def lC10 : Str := strToL "Epoch 1, Loss G: 3.5, nothing"

end LossLog

namespace LossLog

/-! ### General lemmas about the embedded operations -/

theorem exMapM_ok_length {α β : Type} {f : α → Except PyErr β} :
    ∀ (xs : List α) (ys : List β), exMapM f xs = .ok ys → ys.length = xs.length := by
  intro xs
  induction xs with
  | nil =>
    intro ys h
    simp only [exMapM] at h
    injection h with h2
    subst h2
    rfl
  | cons a as ih =>
    intro ys h
    cases hfa : f a with
    | error e => simp only [exMapM, hfa] at h; exact Except.noConfusion h
    | ok b =>
      cases hrest : exMapM f as with
      | error e => simp only [exMapM, hfa, hrest] at h; exact Except.noConfusion h
      | ok bs =>
        simp only [exMapM, hfa, hrest] at h
        injection h with h2
        subst h2
        simp [ih bs hrest]

theorem exMapM_ok_getD {α β : Type} {f : α → Except PyErr β} (da : α) (db : β) :
    ∀ (xs : List α) (ys : List β), exMapM f xs = .ok ys →
      ∀ i, i < xs.length → f (xs.getD i da) = .ok (ys.getD i db) := by
  intro xs
  induction xs with
  | nil => intro ys h i hi; exact absurd hi (by simp)
  | cons a as ih =>
    intro ys h i hi
    cases hfa : f a with
    | error e => simp only [exMapM, hfa] at h; exact Except.noConfusion h
    | ok b =>
      cases hrest : exMapM f as with
      | error e => simp only [exMapM, hfa, hrest] at h; exact Except.noConfusion h
      | ok bs =>
        simp only [exMapM, hfa, hrest] at h
        injection h with h2
        subst h2
        cases i with
        | zero => simpa using hfa
        | succ j =>
          have hj : j < as.length := by simpa using hi
          simpa using ih bs hrest j hj

theorem exMapM_ok_of_mem {α β : Type} {f : α → Except PyErr β} :
    ∀ (xs : List α) (ys : List β), exMapM f xs = .ok ys → ∀ a ∈ xs, ∃ b, f a = .ok b := by
  intro xs
  induction xs with
  | nil => intro ys _ a ha; cases ha
  | cons x as ih =>
    intro ys h a ha
    cases hfx : f x with
    | error e => simp only [exMapM, hfx] at h; exact Except.noConfusion h
    | ok b =>
      cases hrest : exMapM f as with
      | error e => simp only [exMapM, hfx, hrest] at h; exact Except.noConfusion h
      | ok bs =>
        cases ha with
        | head => exact ⟨b, hfx⟩
        | tail _ hmem => exact ih bs hrest a hmem

theorem exMapM_error_of_mem {α β : Type} {f : α → Except PyErr β} {e : PyErr} :
    ∀ (xs : List α) (a : α), a ∈ xs → f a = .error e →
      ∃ e2, exMapM f xs = .error e2 := by
  intro xs
  induction xs with
  | nil => intro a ha; cases ha
  | cons x as ih =>
    intro a ha hfa
    cases ha with
    | head => exact ⟨e, by simp only [exMapM, hfa]⟩
    | tail _ hmem =>
      cases hfx : f x with
      | error e3 => exact ⟨e3, by simp only [exMapM, hfx]⟩
      | ok b =>
        obtain ⟨e2, h2⟩ := ih a hmem hfa
        exact ⟨e2, by simp only [exMapM, hfx, h2]⟩

theorem dictLookup_dictInsert_self (k : Str) (v : LossTable) :
    ∀ d : PyDict, dictLookup k (dictInsert k v d) = some v := by
  intro d
  induction d with
  | nil => simp [dictInsert, dictLookup]
  | cons q rest ih =>
    obtain ⟨k2, v2⟩ := q
    by_cases hk : k2 = k
    · simp [dictInsert, dictLookup, hk]
    · simp [dictInsert, dictLookup, hk, ih]

theorem dictLookup_dictInsert_ne (k k2 : Str) (v : LossTable) (hne : k2 ≠ k) :
    ∀ d : PyDict, dictLookup k2 (dictInsert k v d) = dictLookup k2 d := by
  have hkk : ¬ k = k2 := fun h => hne h.symm
  intro d
  induction d with
  | nil => simp [dictInsert, dictLookup, hkk]
  | cons q rest ih =>
    obtain ⟨k3, v3⟩ := q
    by_cases hk : k3 = k
    · subst hk
      simp [dictInsert, dictLookup, hkk]
    · simp only [dictInsert, if_neg hk]
      by_cases hk2 : k3 = k2
      · simp [dictLookup, hk2]
      · simp [dictLookup, hk2, ih]

theorem mem_dictInsert (k : Str) (v : LossTable) :
    ∀ (d : PyDict) (p : Str × LossTable), p ∈ dictInsert k v d → p = (k, v) ∨ p ∈ d := by
  intro d
  induction d with
  | nil =>
    intro p hp
    simp [dictInsert] at hp
    exact Or.inl hp
  | cons q rest ih =>
    intro p hp
    obtain ⟨k2, v2⟩ := q
    by_cases hk : k2 = k
    · simp only [dictInsert, if_pos hk] at hp
      cases hp with
      | head => exact Or.inl rfl
      | tail _ hmem => exact Or.inr (List.mem_cons_of_mem _ hmem)
    · simp only [dictInsert, if_neg hk] at hp
      cases hp with
      | head => exact Or.inr (List.mem_cons_self _ _)
      | tail _ hmem =>
        rcases ih p hmem with h1 | h2
        · exact Or.inl h1
        · exact Or.inr (List.mem_cons_of_mem _ h2)

theorem mem_keys_dictInsert (k a : Str) (v : LossTable) :
    ∀ d : PyDict, a ∈ (dictInsert k v d).map Prod.fst → a = k ∨ a ∈ d.map Prod.fst := by
  intro d ha
  rcases List.mem_map.mp ha with ⟨p, hp, hpa⟩
  rcases mem_dictInsert k v d p hp with h1 | h2
  · rw [h1] at hpa
    exact Or.inl hpa.symm
  · exact Or.inr (List.mem_map.mpr ⟨p, h2, hpa⟩)

theorem keys_nodup_dictInsert (k : Str) (v : LossTable) :
    ∀ d : PyDict, (d.map Prod.fst).Nodup → ((dictInsert k v d).map Prod.fst).Nodup := by
  intro d
  induction d with
  | nil => intro _; simp [dictInsert]
  | cons q rest ih =>
    intro hnd
    obtain ⟨k2, v2⟩ := q
    simp only [List.map_cons, List.nodup_cons] at hnd
    by_cases hk : k2 = k
    · simp only [dictInsert, if_pos hk, List.map_cons, List.nodup_cons]
      exact ⟨hk ▸ hnd.1, hnd.2⟩
    · simp only [dictInsert, if_neg hk, List.map_cons, List.nodup_cons]
      refine ⟨fun hmem => ?_, ih hnd.2⟩
      rcases mem_keys_dictInsert k k2 v rest hmem with h1 | h2
      · exact hk h1
      · exact hnd.1 h2

theorem processBlock_ok_key {m : Str × Str} {kt : Str × LossTable}
    (h : processBlock m = .ok kt) : kt.1 = pyStrip m.1 ∧ blockTable m.2 = .ok kt.2 := by
  unfold processBlock at h
  cases hbt : blockTable m.2 with
  | error e => rw [hbt] at h; exact Except.noConfusion h
  | ok t =>
    rw [hbt] at h
    injection h with h2
    subst h2
    exact ⟨rfl, rfl⟩

theorem insertBlocks_ok_mem :
    ∀ (ms : List (Str × Str)) (acc d : PyDict), insertBlocks ms acc = .ok d →
      ∀ p : Str × LossTable, p ∈ d → p ∈ acc ∨ ∃ m ∈ ms, processBlock m = .ok p := by
  intro ms
  induction ms with
  | nil =>
    intro acc d h p hp
    simp only [insertBlocks] at h
    injection h with h2
    subst h2
    exact Or.inl hp
  | cons m0 rest ih =>
    intro acc d h p hp
    cases hpb : processBlock m0 with
    | error e => simp only [insertBlocks, hpb] at h; exact Except.noConfusion h
    | ok kt =>
      simp only [insertBlocks, hpb] at h
      rcases ih _ d h p hp with h1 | ⟨m, hm, hpm⟩
      · rcases mem_dictInsert kt.1 kt.2 acc p h1 with h2 | h3
        · refine Or.inr ⟨m0, List.mem_cons_self _ _, ?_⟩
          rw [h2]
          exact hpb
        · exact Or.inl h3
      · exact Or.inr ⟨m, List.mem_cons_of_mem _ hm, hpm⟩

theorem insertBlocks_ok_all :
    ∀ (ms : List (Str × Str)) (acc d : PyDict), insertBlocks ms acc = .ok d →
      ∀ m ∈ ms, ∃ kt, processBlock m = .ok kt := by
  intro ms
  induction ms with
  | nil => intro acc d _ m hm; cases hm
  | cons m0 rest ih =>
    intro acc d h m hm
    cases hpb : processBlock m0 with
    | error e => simp only [insertBlocks, hpb] at h; exact Except.noConfusion h
    | ok kt =>
      simp only [insertBlocks, hpb] at h
      cases hm with
      | head => exact ⟨kt, hpb⟩
      | tail _ hmem => exact ih _ d h m hmem

theorem insertBlocks_error_of_mem {e : PyErr} :
    ∀ (ms : List (Str × Str)) (m : Str × Str), m ∈ ms → processBlock m = .error e →
      ∀ acc, ∃ e2, insertBlocks ms acc = .error e2 := by
  intro ms
  induction ms with
  | nil => intro m hm; cases hm
  | cons m0 rest ih =>
    intro m hm hpm acc
    cases hm with
    | head => exact ⟨e, by simp only [insertBlocks, hpm]⟩
    | tail _ hmem =>
      cases hpb : processBlock m0 with
      | error e3 => exact ⟨e3, by simp only [insertBlocks, hpb]⟩
      | ok kt =>
        obtain ⟨e2, h2⟩ := ih m hmem hpm (dictInsert kt.1 kt.2 acc)
        exact ⟨e2, by simp only [insertBlocks, hpb, h2]⟩

theorem insertBlocks_keys_nodup :
    ∀ (ms : List (Str × Str)) (acc d : PyDict), insertBlocks ms acc = .ok d →
      (acc.map Prod.fst).Nodup → (d.map Prod.fst).Nodup := by
  intro ms
  induction ms with
  | nil =>
    intro acc d h hn
    simp only [insertBlocks] at h
    injection h with h2
    subst h2
    exact hn
  | cons m0 rest ih =>
    intro acc d h hn
    cases hpb : processBlock m0 with
    | error e => simp only [insertBlocks, hpb] at h; exact Except.noConfusion h
    | ok kt =>
      simp only [insertBlocks, hpb] at h
      exact ih _ d h (keys_nodup_dictInsert kt.1 kt.2 acc hn)

theorem insertBlocks_lookup :
    ∀ (ms : List (Str × Str)) (acc d : PyDict), insertBlocks ms acc = .ok d → ∀ k : Str,
      (lastWith (fun m2 => decide (pyStrip m2.1 = k)) ms = none →
        dictLookup k d = dictLookup k acc) ∧
      (∀ m, lastWith (fun m2 => decide (pyStrip m2.1 = k)) ms = some m →
        ∃ t, processBlock m = .ok (k, t) ∧ dictLookup k d = some t) := by
  intro ms
  induction ms with
  | nil =>
    intro acc d h k
    simp only [insertBlocks] at h
    injection h with h2
    subst h2
    refine ⟨fun _ => rfl, fun m hm => ?_⟩
    simp [lastWith] at hm
  | cons m0 rest ih =>
    intro acc d h k
    cases hpb : processBlock m0 with
    | error e => simp only [insertBlocks, hpb] at h; exact Except.noConfusion h
    | ok kt =>
      simp only [insertBlocks, hpb] at h
      have IH := ih (dictInsert kt.1 kt.2 acc) d h k
      have hkey := processBlock_ok_key hpb
      constructor
      · intro hnone
        cases hrec : lastWith (fun m2 => decide (pyStrip m2.1 = k)) rest with
        | some b => simp only [lastWith, hrec] at hnone; exact Option.noConfusion hnone
        | none =>
          simp only [lastWith, hrec] at hnone
          by_cases hp : pyStrip m0.1 = k
          · simp [hp] at hnone
          · rw [IH.1 hrec, dictLookup_dictInsert_ne kt.1 k kt.2 ?hne acc]
            intro hh
            exact hp (by rw [← hkey.1]; exact hh.symm)
      · intro m hm
        cases hrec : lastWith (fun m2 => decide (pyStrip m2.1 = k)) rest with
        | some b =>
          simp only [lastWith, hrec] at hm
          injection hm with hm2
          subst hm2
          exact IH.2 b hrec
        | none =>
          simp only [lastWith, hrec] at hm
          by_cases hp : pyStrip m0.1 = k
          · simp [hp] at hm
            subst hm
            refine ⟨kt.2, ?_, ?_⟩
            · have hkt : (k, kt.2) = kt := by
                rw [← hp, ← hkey.1]
              rw [hkt]
              exact hpb
            · have hk1 : kt.1 = k := by rw [hkey.1, hp]
              rw [IH.1 hrec, hk1, dictLookup_dictInsert_self k kt.2 acc]
          · simp [hp] at hm

end LossLog

namespace LossLog

/-! ### Lemmas about splitting, joining and per-block conversion -/

theorem pySplitNl_no_nl : ∀ l : Str, '\n' ∉ l → pySplitNl l = [l] := by
  intro l
  induction l with
  | nil => intro _; rfl
  | cons c rest ih =>
    intro h
    have hc : ¬ c = '\n' := fun hh => h (hh ▸ List.mem_cons_self c rest)
    have hr : '\n' ∉ rest := fun hm => h (List.mem_cons_of_mem c hm)
    simp [pySplitNl, hc, ih hr]

theorem pySplitNl_append_nl : ∀ l t : Str, '\n' ∉ l →
    pySplitNl (l ++ '\n' :: t) = l :: pySplitNl t := by
  intro l
  induction l with
  | nil => intro t _; simp [pySplitNl]
  | cons c rest ih =>
    intro t h
    have hc : ¬ c = '\n' := fun hh => h (hh ▸ List.mem_cons_self c rest)
    have hr : '\n' ∉ rest := fun hm => h (List.mem_cons_of_mem c hm)
    simp [pySplitNl, hc, ih t hr]

theorem pySplitNl_joinNl : ∀ ls : List Str, (∀ l ∈ ls, '\n' ∉ l) → ls ≠ [] →
    pySplitNl (joinNl ls) = ls := by
  intro ls
  induction ls with
  | nil => intro _ h; exact absurd rfl h
  | cons l rest ih =>
    intro hall _
    cases rest with
    | nil => exact pySplitNl_no_nl l (hall l (List.mem_cons_self _ _))
    | cons l2 rest2 =>
      have hj : joinNl (l :: l2 :: rest2) = l ++ '\n' :: joinNl (l2 :: rest2) := rfl
      rw [hj, pySplitNl_append_nl l _ (hall l (List.mem_cons_self _ _))]
      rw [ih (fun x hx => hall x (List.mem_cons_of_mem l hx)) (by simp)]

theorem epochLinesOf_joinNl (ls : List Str) (hall : ∀ l ∈ ls, '\n' ∉ l) (hne : ls ≠ []) :
    epochLinesOf (joinNl ls) = ls.filter (fun l => "Epoch".data.isPrefixOf l) := by
  unfold epochLinesOf
  rw [pySplitNl_joinNl ls hall hne]

theorem splitsAtNl_no_nl : ∀ s : Str, '\n' ∉ s → splitsAtNl s = [] := by
  intro s
  induction s with
  | nil => intro _; rfl
  | cons c rest ih =>
    intro h
    have hc : ¬ c = '\n' := fun hh => h (hh ▸ List.mem_cons_self c rest)
    have hr : '\n' ∉ rest := fun hm => h (List.mem_cons_of_mem c hm)
    simp [splitsAtNl, hc, ih hr]

theorem splitsAtNl_single : ∀ a b : Str, '\n' ∉ a → '\n' ∉ b →
    splitsAtNl (a ++ '\n' :: b) = [(a, b)] := by
  intro a
  induction a with
  | nil => intro b _ hb; simp [splitsAtNl, splitsAtNl_no_nl b hb]
  | cons c rest ih =>
    intro b ha hb
    have hc : ¬ c = '\n' := fun hh => ha (hh ▸ List.mem_cons_self c rest)
    have hr : '\n' ∉ rest := fun hm => ha (List.mem_cons_of_mem c hm)
    simp [splitsAtNl, hc, ih b hr hb]

/-- The block pattern requires at least one body character: when a header
line is immediately followed by `#END#` and nothing follows, the attempt
`(.+?)\n(.+?)#END#` fails for every choice of the lazy groups. -/
theorem matchBlock_terminal_no_body (hd : Str) (hh : '\n' ∉ hd) :
    matchBlock (hd ++ '\n' :: endMarker) = none := by
  unfold matchBlock
  rw [splitsAtNl_single hd endMarker hh (by decide)]
  cases hd with
  | nil => rfl
  | cons c rest =>
    have h1 : lazyEndSplit endMarker = none := by decide
    simp [List.filter, List.findSome?, h1]

theorem blockTable_ok_rows {b : Str} {t : LossTable} (h : blockTable b = .ok t) :
    RowsInBodyOrder b t := by
  unfold blockTable at h
  cases h1 : exMapM extractEpochNum (epochLinesOf b) with
  | error e => rw [h1] at h; exact Except.noConfusion h
  | ok es =>
    rw [h1] at h
    cases h2 : exMapM extractLossG (epochLinesOf b) with
    | error e => rw [h2] at h; exact Except.noConfusion h
    | ok gs =>
      rw [h2] at h
      cases h3 : exMapM extractLossD (epochLinesOf b) with
      | error e => rw [h3] at h; exact Except.noConfusion h
      | ok ds =>
        rw [h3] at h
        injection h with h4
        subst h4
        exact ⟨exMapM_ok_length _ _ h1, exMapM_ok_length _ _ h2, exMapM_ok_length _ _ h3,
          fun i hi => exMapM_ok_getD [] 0 _ _ h1 i hi,
          fun i hi => exMapM_ok_getD [] 0 _ _ h2 i hi,
          fun i hi => exMapM_ok_getD [] 0 _ _ h3 i hi⟩

theorem blockTable_error_of_bad (b : Str) (l : Str) (hl : l ∈ epochLinesOf b)
    (hbad : (∃ e, extractEpochNum l = .error e) ∨ (∃ e, extractLossG l = .error e) ∨
      (∃ e, extractLossD l = .error e)) :
    ∃ e, blockTable b = .error e := by
  rcases hbad with ⟨e, he⟩ | ⟨e, he⟩ | ⟨e, he⟩
  · obtain ⟨e2, h2⟩ := exMapM_error_of_mem (epochLinesOf b) l hl he
    exact ⟨e2, by simp only [blockTable, h2]⟩
  · cases h1 : exMapM extractEpochNum (epochLinesOf b) with
    | error e3 => exact ⟨e3, by simp only [blockTable, h1]⟩
    | ok es =>
      obtain ⟨e2, h2⟩ := exMapM_error_of_mem (epochLinesOf b) l hl he
      exact ⟨e2, by simp only [blockTable, h1, h2]⟩
  · cases h1 : exMapM extractEpochNum (epochLinesOf b) with
    | error e3 => exact ⟨e3, by simp only [blockTable, h1]⟩
    | ok es =>
      cases h2 : exMapM extractLossG (epochLinesOf b) with
      | error e3 => exact ⟨e3, by simp only [blockTable, h1, h2]⟩
      | ok gs =>
        obtain ⟨e2, h3⟩ := exMapM_error_of_mem (epochLinesOf b) l hl he
        exact ⟨e2, by simp only [blockTable, h1, h2, h3]⟩

theorem extractEpochNum_error_of_capture {l : Str} (h : epochNumCapture l = none) :
    extractEpochNum l = .error .indexError := by
  simp only [extractEpochNum, h]

theorem extractLossG_error_of_capture {l : Str} (h : lossGCapture l = none) :
    extractLossG l = .error .indexError := by
  simp only [extractLossG, h]

theorem extractLossD_error_of_capture {l : Str} (h : lossDCapture l = none) :
    extractLossD l = .error .indexError := by
  simp only [extractLossD, h]

theorem extract_error_of_bad_line (s : Str) (m : Str × Str) (l : Str)
    (hm : m ∈ findallBlocks s) (hl : l ∈ epochLinesOf m.2)
    (hbad : (∃ e, extractEpochNum l = .error e) ∨ (∃ e, extractLossG l = .error e) ∨
      (∃ e, extractLossD l = .error e)) :
    ∃ e, extract_loss_info_from_stdout s = .error e := by
  obtain ⟨e, he⟩ := blockTable_error_of_bad m.2 l hl hbad
  have hpb : processBlock m = .error e := by simp only [processBlock, he]
  obtain ⟨e2, h2⟩ := insertBlocks_error_of_mem (findallBlocks s) m hm hpb []
  exact ⟨e2, h2⟩

theorem lastWith_isSome_of_mem {α : Type} {p : α → Bool} :
    ∀ (l : List α) (a : α), a ∈ l → p a = true → ∃ b, lastWith p l = some b := by
  intro l
  induction l with
  | nil => intro a ha; cases ha
  | cons x xs ih =>
    intro a ha hpa
    cases hrec : lastWith p xs with
    | some b => exact ⟨b, by simp only [lastWith, hrec]⟩
    | none =>
      cases ha with
      | head => exact ⟨x, by simp only [lastWith, hrec, hpa, if_true]⟩
      | tail _ hmem =>
        obtain ⟨b, hb⟩ := ih a hmem hpa
        rw [hb] at hrec
        exact Option.noConfusion hrec

end LossLog

namespace LossLog

/-! ### The claims -/

/-- C1: For an input containing a single well-formed block with header `D1`
and the two epoch lines `Epoch 0, Loss G: 1.5, Loss D: 0.9` and
`Epoch 1, Loss G: 1.2, Loss D: 0.8`, the parse returns a mapping with the
single key `D1` whose table has exactly the rows (0, 1.5, 0.9) and
(1, 1.2, 0.8), in that order, in the columns Epoch, Loss_G, Loss_D. -/
theorem c1_single_block_two_rows :
    extract_loss_info_from_stdout inC1 = .ok [(strToL "D1", tblC1)] ∧
    tblC1.rows = [(0, (1.5 : ℚ), (0.9 : ℚ)), (1, 1.2, 0.8)] := by
  constructor
  · decide
  · simp [LossTable.rows, tblC1, List.zip]
    norm_num [Rat.mkRat_eq_div]

/-- C2 (counterexample): a missing `Loss G:`/`Loss D:` field makes the call
fail, but with a bare `IndexError` whose fixed message `list index out of
range` is the same for every offending block and line and contains neither
the dataset identifier (`D1` vs `D2`) nor the line content — not the
descriptive error the claim asserts. -/
theorem c2_counterexample :
    extract_loss_info_from_stdout inC2a = .error .indexError ∧
    extract_loss_info_from_stdout inC2b = .error .indexError ∧
    containsSub (strToL "D1") (PyErr.message .indexError) = false ∧
    containsSub (strToL "D2") (PyErr.message .indexError) = false ∧
    containsSub lC2 (PyErr.message .indexError) = false := by
  decide

/-- C2 (amended): for every input in which some epoch line of a block's
body is missing one of the three required fields (its field regex finds no
match), the call to parse fails with an exception — an unspecific
`IndexError` rather than an error identifying the block or line — and
returns no table at all for that call. -/
theorem c2_missing_field_fails (s : Str) (m : Str × Str) (l : Str)
    (hm : m ∈ findallBlocks s) (hl : l ∈ epochLinesOf m.2)
    (hmiss : epochNumCapture l = none ∨ lossGCapture l = none ∨ lossDCapture l = none) :
    ∃ e, extract_loss_info_from_stdout s = .error e := by
  refine extract_error_of_bad_line s m l hm hl ?_
  rcases hmiss with h | h | h
  · exact Or.inl ⟨.indexError, extractEpochNum_error_of_capture h⟩
  · exact Or.inr (Or.inl ⟨.indexError, extractLossG_error_of_capture h⟩)
  · exact Or.inr (Or.inr ⟨.indexError, extractLossD_error_of_capture h⟩)

theorem c2_missing_field_fails_witness :
    mC2 ∈ findallBlocks inC2a ∧ lC2 ∈ epochLinesOf mC2.2 ∧ lossGCapture lC2 = none ∧
    ∃ e, extract_loss_info_from_stdout inC2a = .error e :=
  ⟨by decide, by decide, by decide,
    c2_missing_field_fails inC2a mC2 lC2 (by decide) (by decide)
      (Or.inr (Or.inl (by decide)))⟩

/-- C3: every table in a successful parse result enumerates the epoch lines
of its source block's body in their textual order — row `i` is parsed from
epoch line `i` — with one row per epoch line, hence no re-sorting and no
deduplication even for non-monotonic or repeated epoch numbers. -/
theorem c3_rows_in_body_order (s : Str) (d : PyDict) (k : Str) (t : LossTable)
    (hok : extract_loss_info_from_stdout s = .ok d) (hmem : (k, t) ∈ d) :
    ∃ m ∈ findallBlocks s, pyStrip m.1 = k ∧ RowsInBodyOrder m.2 t := by
  rcases insertBlocks_ok_mem (findallBlocks s) [] d hok (k, t) hmem with h1 | ⟨m, hm, hpm⟩
  · cases h1
  · have hkey := processBlock_ok_key hpm
    exact ⟨m, hm, hkey.1.symm, blockTable_ok_rows hkey.2⟩

theorem c3_rows_in_body_order_witness :
    extract_loss_info_from_stdout sC3 = .ok dC3 ∧ (strToL "D1", tC3) ∈ dC3 ∧
    ∃ m ∈ findallBlocks sC3, pyStrip m.1 = strToL "D1" ∧ RowsInBodyOrder m.2 tC3 :=
  ⟨by decide, by decide,
    c3_rows_in_body_order sC3 dC3 (strToL "D1") tC3 (by decide) (by decide)⟩

/-- C4: in a successful parse result the keys are pairwise distinct, and a
key whose last contributing block (in match order) is `m` is bound to
exactly the table produced from `m` — later blocks with the same stripped
header replace earlier ones entirely. -/
theorem c4_last_write_wins (s : Str) (d : PyDict)
    (hok : extract_loss_info_from_stdout s = .ok d) :
    (d.map Prod.fst).Nodup ∧
    ∀ k m, lastWith (fun m2 => decide (pyStrip m2.1 = k)) (findallBlocks s) = some m →
      ∃ t, processBlock m = .ok (k, t) ∧ dictLookup k d = some t := by
  refine ⟨insertBlocks_keys_nodup (findallBlocks s) [] d hok (by simp), ?_⟩
  intro k m hlast
  exact (insertBlocks_lookup (findallBlocks s) [] d hok k).2 m hlast

theorem c4_last_write_wins_witness :
    extract_loss_info_from_stdout sC4 = .ok dC4 ∧
    lastWith (fun m2 => decide (pyStrip m2.1 = strToL "D1")) (findallBlocks sC4) = some mC4 ∧
    (dC4.map Prod.fst).Nodup ∧
    ∃ t, processBlock mC4 = .ok (strToL "D1", t) ∧
      dictLookup (strToL "D1") dC4 = some t := by
  have h := c4_last_write_wins sC4 dC4 (by decide)
  exact ⟨by decide, by decide, h.1, h.2 (strToL "D1") mC4 (by decide)⟩

/-- C5: when the block pattern `#START#\n(.+?)\n(.+?)#END#` never matches
in the input, the parse returns the empty mapping and signals no error. -/
theorem c5_no_blocks_empty_map (s : Str) (h : findallBlocks s = []) :
    extract_loss_info_from_stdout s = .ok [] := by
  unfold extract_loss_info_from_stdout
  rw [h]
  rfl

theorem c5_no_blocks_empty_map_witness :
    findallBlocks sC5 = [] ∧ extract_loss_info_from_stdout sC5 = .ok [] :=
  ⟨by decide, c5_no_blocks_empty_map sC5 (by decide)⟩

/-- C6: a block whose header line strips to the empty string is processed
like any other block — it is keyed by the empty-string identifier, its
table is in the result, and no error is raised. -/
theorem c6_empty_identifier (s : Str) (d : PyDict) (m : Str × Str)
    (hok : extract_loss_info_from_stdout s = .ok d) (hm : m ∈ findallBlocks s)
    (hdr : pyStrip m.1 = []) :
    (∃ t, processBlock m = .ok ([], t)) ∧ (∃ t, dictLookup [] d = some t) := by
  obtain ⟨kt, hkt⟩ := insertBlocks_ok_all (findallBlocks s) [] d hok m hm
  have hkey := processBlock_ok_key hkt
  constructor
  · refine ⟨kt.2, ?_⟩
    have hk1 : kt.1 = [] := by rw [hkey.1, hdr]
    rw [← hk1]
    exact hkt
  · obtain ⟨b, hb⟩ := @lastWith_isSome_of_mem _ (fun m2 => decide (pyStrip m2.1 = ([] : Str)))
      (findallBlocks s) m hm (by simp [hdr])
    obtain ⟨t, ht⟩ := (insertBlocks_lookup (findallBlocks s) [] d hok []).2 b hb
    exact ⟨t, ht.2⟩

theorem c6_empty_identifier_witness :
    extract_loss_info_from_stdout sC6 = .ok dC6 ∧ mC6 ∈ findallBlocks sC6 ∧
    pyStrip mC6.1 = [] ∧
    ((∃ t, processBlock mC6 = .ok ([], t)) ∧ (∃ t, dictLookup [] dC6 = some t)) :=
  ⟨by decide, by decide, by decide,
    c6_empty_identifier sC6 dC6 mC6 (by decide) (by decide) (by decide)⟩

/-- C7: lines of a block body that do not start with `Epoch` are ignored:
removing such a line from the body changes neither the rows, nor the row
count, nor any parsed value of the table built for the block. -/
theorem c7_noise_lines_ignored (pre post : List Str) (noise : Str)
    (hpre : ∀ l ∈ pre, '\n' ∉ l) (hpost : ∀ l ∈ post, '\n' ∉ l)
    (hn1 : '\n' ∉ noise) (hn2 : "Epoch".data.isPrefixOf noise = false) :
    blockTable (joinNl (pre ++ noise :: post)) = blockTable (joinNl (pre ++ post)) := by
  have hall1 : ∀ l ∈ pre ++ noise :: post, '\n' ∉ l := by
    intro l hl
    rcases List.mem_append.mp hl with h1 | h2
    · exact hpre l h1
    · rcases List.mem_cons.mp h2 with h3 | h4
      · exact h3 ▸ hn1
      · exact hpost l h4
  have he : epochLinesOf (joinNl (pre ++ noise :: post)) =
      epochLinesOf (joinNl (pre ++ post)) := by
    by_cases hemp : pre ++ post = []
    · rw [(List.append_eq_nil.mp hemp).1, (List.append_eq_nil.mp hemp).2]
      have e1 : epochLinesOf (joinNl ([] ++ noise :: [])) = [] := by
        show epochLinesOf noise = []
        unfold epochLinesOf
        rw [pySplitNl_no_nl noise hn1]
        simp [hn2]
      have e2 : epochLinesOf (joinNl (([] : List Str) ++ [])) = [] := by decide
      rw [e1, e2]
    · have hne1 : pre ++ noise :: post ≠ [] := by
        cases pre <;> simp
      have hall2 : ∀ l ∈ pre ++ post, '\n' ∉ l := by
        intro l hl
        rcases List.mem_append.mp hl with h1 | h2
        · exact hpre l h1
        · exact hpost l h2
      rw [epochLinesOf_joinNl (pre ++ noise :: post) hall1 hne1,
        epochLinesOf_joinNl (pre ++ post) hall2 hemp]
      simp [List.filter_append, List.filter_cons, hn2]
  unfold blockTable
  rw [he]

theorem c7_noise_lines_ignored_witness :
    '\n' ∉ noiseC7 ∧ "Epoch".data.isPrefixOf noiseC7 = false ∧
    blockTable (joinNl ([lnC7a] ++ noiseC7 :: [lnC7b])) =
      blockTable (joinNl ([lnC7a] ++ [lnC7b])) :=
  ⟨by decide, by decide,
    c7_noise_lines_ignored [lnC7a] [lnC7b] noiseC7 (by decide) (by decide)
      (by decide) (by decide)⟩

/-- C8: the parse is a pure function of its input string — it is modelled
by a total function with no state, and identical inputs yield identical
results. -/
theorem c8_deterministic (s1 s2 : Str) (h : s1 = s2) :
    extract_loss_info_from_stdout s1 = extract_loss_info_from_stdout s2 :=
  congrArg extract_loss_info_from_stdout h

theorem c8_deterministic_witness :
    sC8 = sC8 ∧ extract_loss_info_from_stdout sC8 = extract_loss_info_from_stdout sC8 :=
  ⟨rfl, c8_deterministic sC8 sC8 rfl⟩

/-- C9 (counterexample): a block whose header line break is immediately
followed by `#END#` is NOT always omitted from the result: when a later
`#END#` occurs in the input, the lazy body group stretches past the
adjacent `#END#`, the block matches with a nonempty body, and its
identifier does get an entry (here `D1` with an empty table). -/
theorem c9_counterexample :
    extract_loss_info_from_stdout sC9x = .ok [(strToL "D1", ⟨[], [], []⟩)] := by
  decide

/-- C9 (amended): the block pattern requires at least one body character,
so a header immediately followed by `#END#` is never matched with an empty
body: the match attempt at that `#END#` fails for every header without a
line break, and when nothing follows that `#END#` in the input the block
is silently omitted — no entry and no error. -/
theorem c9_empty_body_never_matched :
    (∀ hd : Str, '\n' ∉ hd → matchBlock (hd ++ '\n' :: endMarker) = none) ∧
    extract_loss_info_from_stdout sC9 = .ok [] ∧ findallBlocks sC9 = [] :=
  ⟨matchBlock_terminal_no_body, by decide, by decide⟩

theorem c9_empty_body_never_matched_witness :
    '\n' ∉ strToL "D1" ∧ matchBlock (strToL "D1" ++ '\n' :: endMarker) = none :=
  ⟨by decide, c9_empty_body_never_matched.1 (strToL "D1") (by decide)⟩

/-- C10: if any epoch line of any matched block fails one of the three
extractions, the whole call fails with an exception and returns no partial
mapping — tables already assembled for earlier blocks are discarded, since
the error result carries no dictionary. -/
theorem c10_error_atomicity (s : Str) (m : Str × Str) (l : Str)
    (hm : m ∈ findallBlocks s) (hl : l ∈ epochLinesOf m.2)
    (hbad : (∃ e, extractEpochNum l = .error e) ∨ (∃ e, extractLossG l = .error e) ∨
      (∃ e, extractLossD l = .error e)) :
    ∃ e, extract_loss_info_from_stdout s = .error e :=
  extract_error_of_bad_line s m l hm hl hbad

theorem c10_error_atomicity_witness :
    mC10 ∈ findallBlocks sC10 ∧ lC10 ∈ epochLinesOf mC10.2 ∧
    extractLossD lC10 = .error .indexError ∧
    ∃ e, extract_loss_info_from_stdout sC10 = .error e :=
  ⟨by decide, by decide, by decide,
    c10_error_atomicity sC10 mC10 lC10 (by decide) (by decide)
      (Or.inr (Or.inr ⟨.indexError, by decide⟩))⟩

end LossLog
